import Mathlib

/-!
# Verification of the GenMap NSGA2 optimization engine

A shallow embedding of the core of `NSGA2.py` and `MapWidthEval.py` from the
GenMap repository, together with theorems settling the specification claims.

Modelling conventions:
* Numeric routing costs and fitness components are modelled as `Int`
  (Python numbers; only ordering and addition matter to the control flow).
* The routing graph is an abstract type `G`; each router stage both returns a
  cost and may rewrite the graph (the Python stages mutate `g` in place).
* Side effects that the claims talk about (which router stage ran, whether
  `clean_graph` was invoked, whether an objective's `eval` was invoked) are
  recorded in an explicit event trace.
* External collaborators (the DEAP library's `selNSGA2` and `varOr`, the
  `Individual` genome, the Placer) are abstracted by their interface behaviour
  where a claim needs them; each such point is noted in a doc comment.
-/

namespace GenMap

/-- Events observable during one evaluation of a candidate: the four router
stage functions, the router's `clean_graph`, and an objective `eval` call. -/
inductive REvent where
  | comp
  | const
  | input
  | output
  | clean
  | objective
deriving DecidableEq, Repr

/-- The candidate state touched by `NSGA2.__doRouting` / `eval_objectives`:
validity flag, `routing_cost`, the mutable `routed_graph`, and the stored
fitness vector (`ind.fitness.values`). -/
structure Individual (G : Type) where
  valid : Bool
  routing_cost : Int
  routed_graph : G
  fitness : List Int
deriving DecidableEq, Repr

/-- The router capability used by `__doRouting`, specialised to one candidate:
for a fixed CGRA, application subgraphs and mapping, each stage is a function
from the current routing graph to (cost, rewritten graph).  `penalty` is
`router.get_penalty_cost()`.  The Python code passes the pipeline-register
assignment to `output_routing` when the CGRA has pipeline registers; both
branches accumulate the returned cost identically, so the embedding keeps a
single abstract output stage. -/
structure Router (G : Type) where
  penalty : Int
  comp_routing : G → Int × G
  const_routing : G → Int × G
  input_routing : G → Int × G
  output_routing : G → Int × G
  clean_graph : G → G

variable {G : Type}

/-- Embedding of `NSGA2.__doRouting` (NSGA2.py lines 255-301).  Returns the
updated individual and the trace of router events, in invocation order.
If the individual is already valid the function returns immediately.
Otherwise costs accumulate across the four stages with an early exit as soon
as the running total exceeds the penalty; on early exit `routing_cost` is set
to the running total plus the penalty and the candidate stays invalid; if all
four boundaries stay within the penalty, `routing_cost` is the plain total,
the graph is cleaned and the candidate is validated. -/
def doRouting (r : Router G) (ind : Individual G) : Individual G × List REvent :=
  if ind.valid then (ind, [])
  else
    let p := r.penalty
    let s1 := r.comp_routing ind.routed_graph
    let cost1 := s1.1
    if cost1 > p then
      ({ ind with routing_cost := cost1 + p, routed_graph := s1.2 }, [.comp])
    else
      let s2 := r.const_routing s1.2
      let cost2 := cost1 + s2.1
      if cost2 > p then
        ({ ind with routing_cost := cost2 + p, routed_graph := s2.2 }, [.comp, .const])
      else
        let s3 := r.input_routing s2.2
        let cost3 := cost2 + s3.1
        if cost3 > p then
          ({ ind with routing_cost := cost3 + p, routed_graph := s3.2 },
            [.comp, .const, .input])
        else
          let s4 := r.output_routing s3.2
          let cost4 := cost3 + s4.1
          if cost4 > p then
            ({ ind with routing_cost := cost4 + p, routed_graph := s4.2 },
              [.comp, .const, .input, .output])
          else
            ({ ind with
                routing_cost := cost4
                routed_graph := r.clean_graph s4.2
                valid := true },
              [.comp, .const, .input, .output, .clean])

/-- Accumulated cost at the first stage boundary (after computation routing),
for a candidate whose routing starts from graph `g`. -/
def cum1 (r : Router G) (g : G) : Int := (r.comp_routing g).1

/-- Graph after computation routing. -/
def graph1 (r : Router G) (g : G) : G := (r.comp_routing g).2

/-- Accumulated cost after constant routing. -/
def cum2 (r : Router G) (g : G) : Int := cum1 r g + (r.const_routing (graph1 r g)).1

/-- Graph after constant routing. -/
def graph2 (r : Router G) (g : G) : G := (r.const_routing (graph1 r g)).2

/-- Accumulated cost after input routing. -/
def cum3 (r : Router G) (g : G) : Int := cum2 r g + (r.input_routing (graph2 r g)).1

/-- Graph after input routing. -/
def graph3 (r : Router G) (g : G) : G := (r.input_routing (graph2 r g)).2

/-- Accumulated cost after output routing (the final four-stage total). -/
def cum4 (r : Router G) (g : G) : Int := cum3 r g + (r.output_routing (graph3 r g)).1

/-- Graph after output routing. -/
def graph4 (r : Router G) (g : G) : G := (r.output_routing (graph3 r g)).2

/-- The accumulated running total at the first boundary whose check fails
(equal to `cum4` when no boundary fails). -/
def failCost (r : Router G) (g : G) : Int :=
  if cum1 r g > r.penalty then cum1 r g
  else if cum2 r g > r.penalty then cum2 r g
  else if cum3 r g > r.penalty then cum3 r g
  else cum4 r g

/-- Embedding of `NSGA2.eval_objectives` (NSGA2.py lines 246-253), with the
objective list specialised to the candidate: routing runs first, then every
objective's `eval` is invoked on the (possibly updated) candidate, in order.
The returned pair is (fitness vector, individual), as in the Python code; the
trace extends the routing trace by one `objective` event per objective. -/
def eval_objectives (evals : List (Individual G → Int)) (r : Router G)
    (ind : Individual G) : (List Int × Individual G) × List REvent :=
  let step := doRouting r ind
  ((evals.map (fun f => f step.1), step.1),
    step.2 ++ evals.map (fun _ => REvent.objective))

/-! ## Reference point handling (`NSGA2.set_ref_point`) -/

/-- The console messages `set_ref_point` can print. -/
inductive RefMsg where
  | hvDisabled
  | tooFew
  | tooMuch
deriving DecidableEq, Repr

/-- The engine state read and written by `set_ref_point`: the hypervolume
logging flag, the number of configured objectives (`len(self.__eval_list)`)
and the stored reference point (`self.__hv_refpoint`, `None` initially). -/
structure HVState where
  hv_logging : Bool
  numObjectives : Nat
  hv_refpoint : Option (List Int)
deriving DecidableEq, Repr

/-- Embedding of `NSGA2.set_ref_point` (NSGA2.py lines 209-231).  Returns the
boolean result, the updated state and the printed messages.  When logging is
disabled the call reports success and ignores the argument.  Otherwise the
code compares `len(self.__eval_list)` with `len(ref_point)`: when the
objective list is shorter it prints "Too few of ref point values" and returns
`False`; when it is longer it prints "Too much of ref point values" and
returns `False`; on equal lengths it stores a copy of the vector and returns
`True`. -/
def set_ref_point (s : HVState) (ref_point : List Int) :
    Bool × HVState × List RefMsg :=
  if s.hv_logging = false then
    (true, s, [.hvDisabled])
  else if s.numObjectives < ref_point.length then
    (false, s, [.tooFew])
  else if s.numObjectives > ref_point.length then
    (false, s, [.tooMuch])
  else
    (true, { s with hv_refpoint := some ref_point }, [])

/-! ## Stall detection and the generational loop (`NSGA2.runOptimization`) -/

/-- Python `set(a) == set(b)` on lists of fitness tuples: each element of one
list occurs in the other. -/
def listSetEq (a b : List (List Int)) : Bool :=
  a.all (fun x => b.contains x) && b.all (fun x => a.contains x)

/-- Embedding of the stall-counter update (NSGA2.py lines 345-354): the new
value of `stall_count` given this generation's hall of fame, the previous
generation's copy, and the current counter.  Archives are abstracted to the
lists of their members' fitness vectors (`[ind.fitness.values for ind in hof]`);
the DEAP `ParetoFront` can hold distinct individuals with equal fitness, so
duplicates are possible. -/
def stallUpdate (hof prev_hof : List (List Int)) (stall : Nat) : Nat :=
  if hof.length = prev_hof.length then
    if listSetEq hof prev_hof then stall + 1 else 0
  else 0

/-- One execution of the generational `while` loop of `NSGA2.runOptimization`
(NSGA2.py lines 318-354), tracking only `gen_count` and `stall_count`.
`hofs k` abstracts the archive fitness-vector list just after generation `k`'s
`hof.update(pop)` — its contents are produced by the external DEAP archive and
the evaluated population, so the loop is parametric in them.  `prev` is
`prev_hof` (initially the empty list).  `fuel` bounds the recursion; since
`gen` increases by one per iteration and the guard requires
`gen < maxGen`, fuel `maxGen` never runs out before the guard fails. -/
def loopAux (maxGen maxStall : Nat) (hofs : Nat → List (List Int)) :
    Nat → List (List Int) → Nat → Nat → Nat × Nat
  | 0, _, gen, stall => (gen, stall)
  | fuel + 1, prev, gen, stall =>
    if gen < maxGen ∧ stall < maxStall then
      let hof := hofs (gen + 1)
      loopAux maxGen maxStall hofs fuel hof (gen + 1) (stallUpdate hof prev stall)
    else (gen, stall)

/-- The `(gen_count, stall_count)` pair at loop exit: the loop starts from
`gen_count = 0`, `stall_count = 0`, `prev_hof = []`. -/
def runLoop (maxGen maxStall : Nat) (hofs : Nat → List (List Int)) : Nat × Nat :=
  loopAux maxGen maxStall hofs maxGen [] 0 0

/-- Population size after generation `k` of `runOptimization` (size `0` is the
state just after the initial population is built, NSGA2.py line 310).  Each
iteration executes `self.pop = select(self.pop + offspring, Select size)`
followed by `self.pop += rnd_ind` (lines 342 and 366).  Collaborator length
contracts used: DEAP's `varOr` returns exactly `Offspring size` individuals,
DEAP's `selNSGA2(l, k)` returns `min k (len l)` individuals, and
`random_population(n)` returns exactly `n` individuals. -/
def popSizeAfterGen (initSize selectSize offspringSize randomSize : Nat) :
    Nat → Nat
  | 0 => initSize
  | k + 1 =>
      min selectSize
        (popSizeAfterGen initSize selectSize offspringSize randomSize k
          + offspringSize) + randomSize

/-! ## Hypervolume logging availability and the run's return value -/

/-- The hypervolume-logging flag after `__init__` and `setup`:
`__init__` turns it off when the `pygmo` hypervolume import fails
(NSGA2.py lines 100-105) and `setup` turns it off when exactly one objective
is configured (lines 142-144).  No method ever turns it back on. -/
def hvLoggingAfterSetup (hvImportOk : Bool) (numObjectives : Nat) : Bool :=
  hvImportOk && !(numObjectives == 1)

/-- The value returned by `runOptimization` after the loop (NSGA2.py lines
396-405), abstracting the archive to its fitness vectors and the computed
hypervolume series to `hvLog`: with logging enabled and a non-empty valid
archive it returns the series, otherwise the quality slot is `None`. -/
def runReturn (hvLogging : Bool) (hof : List (List Int)) (hvLog : List Int) :
    List (List Int) × Option (List Int) :=
  if hvLogging && decide (hof.length > 0) then (hof, some hvLog)
  else (hof, none)

/-! ## The mapping-width objective (`MapWidthEval`) -/

/-- The PE resource record returned by `CGRA.get_PE_resources((x, y))`, as
used by `MapWidthEval.eval`: the SE node sets (`rsc["SE"].values()`) and the
ALU node (`rsc["ALU"]`).  Graph nodes are abstracted to `Nat` identifiers. -/
structure PEResources where
  seSets : List (List Nat)
  alu : Nat

/-- The slice of the `PEArrayModel` capability used by `MapWidthEval.eval`:
grid size, per-coordinate resources, and the SE/ALU node classifiers. -/
structure CGRAModel where
  width : Nat
  height : Nat
  resources : Nat → Nat → PEResources
  isSE : Nat → Bool
  isALU : Nat → Bool

/-- The membership test of MapWidthEval.py lines 32-33: the node occurs in
one of the PE's SE sets or is the PE's ALU. -/
def nodeInPE (rsc : PEResources) (node : Nat) : Bool :=
  rsc.seSets.any (fun s => s.contains node) || node == rsc.alu

/-- The `x_coords` list built by `MapWidthEval.eval` (MapWidthEval.py lines
24-35): for each SE node then each ALU node of the routed graph, every column
`x < width` at which some row `y < height` has the node among the PE's
resources is appended (the `break` leaves only the inner `y` loop). -/
def xCoords (cgra : CGRAModel) (nodes : List Nat) : List Nat :=
  (nodes.filter cgra.isSE ++ nodes.filter cgra.isALU).flatMap (fun node =>
    (List.range cgra.width).filter (fun x =>
      (List.range cgra.height).any (fun y => nodeInPE (cgra.resources x y) node)))

/-- Embedding of `MapWidthEval.eval` (MapWidthEval.py lines 7-38): Python's
`max(x_coords) + 1`, where `max` of an empty list raises `ValueError` —
modelled as `none`. -/
def mapWidthEval (cgra : CGRAModel) (nodes : List Nat) : Option Nat :=
  match (xCoords cgra nodes).maximum with
  | none => none
  | some m => some (m + 1)

/-- `MapWidthEval.isMinimize` (MapWidthEval.py lines 40-42). -/
def mapWidthIsMinimize : Bool := true

/-- The columns of the grid occupied, via some PE's resources, by some SE or
ALU node of the routed graph — stated from the claim's words, to be compared
with the maximum of `xCoords`. -/
def occupiedCols (cgra : CGRAModel) (nodes : List Nat) : List Nat :=
  (List.range cgra.width).filter (fun x =>
    nodes.any (fun node =>
      (cgra.isSE node || cgra.isALU node) &&
        (List.range cgra.height).any (fun y => nodeInPE (cgra.resources x y) node)))

/-! ## Concrete instances used to evaluate the definitions -/

/-- A concrete router over `Nat` graphs whose four stage costs are 3, 4, 2, 1
with penalty 10 (all boundary checks pass); each stage increments the graph. -/
def demoRouter : Router Nat where
  penalty := 10
  comp_routing := fun g => (3, g + 1)
  const_routing := fun g => (4, g + 1)
  input_routing := fun g => (2, g + 1)
  output_routing := fun g => (1, g + 1)
  clean_graph := fun g => g * 100

/-- A concrete router whose computation stage alone costs 25 > penalty 10. -/
def demoRouterHigh : Router Nat where
  penalty := 10
  comp_routing := fun g => (25, g + 1)
  const_routing := fun g => (4, g + 1)
  input_routing := fun g => (2, g + 1)
  output_routing := fun g => (1, g + 1)
  clean_graph := fun g => g * 100

/-- A not-yet-valid candidate with graph `0`. -/
def demoInd : Individual Nat := ⟨false, 0, 0, []⟩

/-- An already-valid candidate whose stored fitness is `[42]`. -/
def validInd : Individual Nat := ⟨true, 5, 0, [42]⟩

/-- A concrete 3×2 CGRA: node 5 is an SE held by PE (1,0), node 7 is the ALU
of PE (2,1); every other site holds an empty SE set and a dummy ALU 99. -/
def demoCGRA : CGRAModel where
  width := 3
  height := 2
  resources := fun x y =>
    { seSets := if x == 1 && y == 0 then [[5]] else [[]]
      alu := if x == 2 && y == 1 then 7 else 99 }
  isSE := fun n => n == 5
  isALU := fun n => n == 7

/-! ## Helper lemmas -/

/-- `stallUpdate` either resets to zero or increments by exactly one. -/
theorem stallUpdate_le (hof prev : List (List Int)) (stall : Nat) :
    stallUpdate hof prev stall ≤ stall + 1 := by
  unfold stallUpdate
  split_ifs <;> omega

/-- The exit-state invariant of the generational loop: starting inside the
bounds with enough fuel, the loop ends with both counters within their bounds
and at least one of them at its bound. -/
theorem loopAux_spec (maxGen maxStall : Nat) (hofs : Nat → List (List Int)) :
    ∀ fuel prev gen stall, gen ≤ maxGen → stall ≤ maxStall →
      maxGen ≤ gen + fuel →
      (loopAux maxGen maxStall hofs fuel prev gen stall).1 ≤ maxGen ∧
      (loopAux maxGen maxStall hofs fuel prev gen stall).2 ≤ maxStall ∧
      ((loopAux maxGen maxStall hofs fuel prev gen stall).1 = maxGen ∨
        (loopAux maxGen maxStall hofs fuel prev gen stall).2 = maxStall) := by
  intro fuel
  induction fuel with
  | zero =>
    intro prev gen stall h1 h2 h3
    simp only [loopAux]
    omega
  | succ n ih =>
    intro prev gen stall h1 h2 h3
    simp only [loopAux]
    split_ifs with hguard
    · have hs := stallUpdate_le (hofs (gen + 1)) prev stall
      exact ih (hofs (gen + 1)) (gen + 1) (stallUpdate (hofs (gen + 1)) prev stall)
        (by omega) (by omega) (by omega)
    · simp only
      omega

/-- Lists of naturals with the same members have the same maximum. -/
theorem list_maximum_congr {l₁ l₂ : List Nat} (h : ∀ x, x ∈ l₁ ↔ x ∈ l₂) :
    l₁.maximum = l₂.maximum := by
  cases hm : l₁.maximum with
  | bot =>
    have h1 : l₁ = [] := List.maximum_eq_bot.mp hm
    have h2 : l₂ = [] := by
      cases hl : l₂ with
      | nil => rfl
      | cons a t =>
        have ha : a ∈ l₁ := (h a).mpr (by rw [hl]; exact List.mem_cons_self a t)
        rw [h1] at ha
        exact absurd ha (List.not_mem_nil a)
    rw [h2]
    exact (List.maximum_eq_bot.mpr rfl).symm
  | coe m =>
    have hm' := List.maximum_eq_coe_iff.mp hm
    exact (List.maximum_eq_coe_iff.mpr
      ⟨(h m).mp hm'.1, fun a ha => hm'.2 a ((h a).mpr ha)⟩).symm

/-- The column list built by `MapWidthEval.eval` and the claim's notion of
occupied columns have the same members. -/
theorem mem_xCoords_iff (cgra : CGRAModel) (nodes : List Nat) (x : Nat) :
    x ∈ xCoords cgra nodes ↔ x ∈ occupiedCols cgra nodes := by
  simp only [xCoords, occupiedCols, List.mem_flatMap, List.mem_append,
    List.mem_filter, List.mem_range, List.any_eq_true, Bool.or_eq_true,
    Bool.and_eq_true]
  constructor
  · rintro ⟨node, hn, hx, hy⟩
    rcases hn with ⟨hmem, hse⟩ | ⟨hmem, halu⟩
    · exact ⟨hx, node, hmem, Or.inl hse, hy⟩
    · exact ⟨hx, node, hmem, Or.inr halu, hy⟩
  · rintro ⟨hx, node, hmem, hclass, hy⟩
    rcases hclass with hse | halu
    · exact ⟨node, Or.inl ⟨hmem, hse⟩, hx, hy⟩
    · exact ⟨node, Or.inr ⟨hmem, halu⟩, hx, hy⟩

/-! ## Claim theorems -/

/-- C1: with quality tracking enabled and two configured objectives, a
reference point of three values (too many) is rejected and the stored
reference point is unchanged, but the printed message is "Too few of ref
point values" — the code reports the opposite direction of the mismatch. -/
theorem set_ref_point_reports_swapped_direction :
    set_ref_point ⟨true, 2, none⟩ [5, 6, 7] =
      (false, ⟨true, 2, none⟩, [RefMsg.tooFew]) ∧
    2 < ([5, 6, 7] : List Int).length ∧
    set_ref_point ⟨true, 2, none⟩ [5] =
      (false, ⟨true, 2, none⟩, [RefMsg.tooMuch]) ∧
    ([5] : List Int).length < 2 := by
  decide

/-- C2 counterexample: with initial size 4, select size 2, offspring size 2
and random-injection size 1, the population size after generation 2 equals
the size after generation 1 (both 3), so the size is not strictly larger
each generation. -/
theorem popSize_not_strictly_increasing :
    popSizeAfterGen 4 2 2 1 1 = 3 ∧ popSizeAfterGen 4 2 2 1 2 = 3 ∧
    ¬ popSizeAfterGen 4 2 2 1 1 < popSizeAfterGen 4 2 2 1 2 := by
  decide

/-- C2 (amended): selection trims the merged population to the select size
before the random individuals are appended, so whenever the select size is at
most the initial size plus the offspring size, the population size after every
generation `k ≥ 1` is exactly select size + random size — constant, not
strictly increasing. -/
theorem popSizeAfterGen_constant (initSize selectSize offspringSize randomSize : Nat)
    (h : selectSize ≤ initSize + offspringSize) :
    ∀ k, 1 ≤ k →
      popSizeAfterGen initSize selectSize offspringSize randomSize k =
        selectSize + randomSize := by
  intro k hk
  induction k with
  | zero => omega
  | succ n ih =>
    cases Nat.eq_or_lt_of_le hk with
    | inl h1 =>
      have hn : n = 0 := by omega
      subst hn
      simp only [popSizeAfterGen]
      omega
    | inr h1 =>
      have hn : 1 ≤ n := by omega
      have := ih hn
      simp only [popSizeAfterGen, this]
      omega

/-- C2 witness: at initial size 4, select size 2, offspring size 2, random
size 1, generation 2 has population size 2 + 1 = 3. -/
theorem popSizeAfterGen_constant_witness :
    popSizeAfterGen 4 2 2 1 2 = 2 + 1 :=
  popSizeAfterGen_constant 4 2 2 1 (by decide) 2 (by decide)

/-- C3 counterexample: archives `[[1]]` and `[[1], [1]]` have equal fitness
sets but different lengths; the code resets the stall counter to 0 instead of
incrementing it to 6. -/
theorem stallUpdate_resets_despite_equal_sets :
    listSetEq [[1]] [[1], [1]] = true ∧
    stallUpdate [[1]] [[1], [1]] 5 = 0 := by
  decide

/-- C3 (amended): the stall counter increments by exactly 1 exactly when both
the archive length and the archive's fitness-vector set are unchanged from
the previous generation; it resets to 0 exactly when the length or the set
differs. -/
theorem stallUpdate_characterization (hof prev : List (List Int)) (stall : Nat) :
    (stallUpdate hof prev stall = stall + 1 ↔
      (hof.length = prev.length ∧ listSetEq hof prev = true)) ∧
    (stallUpdate hof prev stall = 0 ↔
      ¬ (hof.length = prev.length ∧ listSetEq hof prev = true)) := by
  unfold stallUpdate
  split_ifs with h1 h2 <;> simp_all

/-- C7: the generational loop halts with the generation counter at most the
generation maximum and the stall counter at most the stall maximum, with at
least one of the two at its maximum; in particular if the generation counter
is strictly below its maximum, the stall counter equals the stall maximum. -/
theorem runLoop_exit_characterization (maxGen maxStall : Nat)
    (hofs : Nat → List (List Int)) :
    (runLoop maxGen maxStall hofs).1 ≤ maxGen ∧
    (runLoop maxGen maxStall hofs).2 ≤ maxStall ∧
    ((runLoop maxGen maxStall hofs).1 = maxGen ∨
      (runLoop maxGen maxStall hofs).2 = maxStall) ∧
    ((runLoop maxGen maxStall hofs).1 < maxGen →
      (runLoop maxGen maxStall hofs).2 = maxStall) := by
  have h := loopAux_spec maxGen maxStall hofs maxGen [] 0 0
    (Nat.zero_le _) (Nat.zero_le _) (by omega)
  unfold runLoop
  exact ⟨h.1, h.2.1, h.2.2, fun hlt => by omega⟩

/-- C7 witness: with maximum generation 100, maximum stall 3 and an archive
that never changes, the loop halts at generation 3 < 100 with the stall
counter equal to 3. -/
theorem runLoop_exit_witness :
    (runLoop 100 3 (fun _ => [])).1 < 100 ∧
    (runLoop 100 3 (fun _ => [])).2 = 3 :=
  ⟨by decide, (runLoop_exit_characterization 100 3 (fun _ => [])).2.2.2 (by decide)⟩

/-- C8: whenever the hypervolume import failed or exactly one objective is
configured, the logging flag after setup is off, and the run returns `none`
in the quality slot alongside the archive. -/
theorem hv_disabled_returns_none (hvImportOk : Bool) (numObjectives : Nat)
    (hof : List (List Int)) (hvLog : List Int)
    (h : hvImportOk = false ∨ numObjectives = 1) :
    hvLoggingAfterSetup hvImportOk numObjectives = false ∧
    runReturn (hvLoggingAfterSetup hvImportOk numObjectives) hof hvLog =
      (hof, none) := by
  have hoff : hvLoggingAfterSetup hvImportOk numObjectives = false := by
    rcases h with h | h <;> simp [hvLoggingAfterSetup, h]
  refine ⟨hoff, ?_⟩
  rw [hoff]
  simp [runReturn]

/-- C8 witness: one objective with a successful import still disables quality
tracking and the run's quality slot is `none`. -/
theorem hv_disabled_returns_none_witness :
    hvLoggingAfterSetup true 1 = false ∧
    runReturn (hvLoggingAfterSetup true 1) [[1]] [2] = ([[1]], none) :=
  hv_disabled_returns_none true 1 [[1]] [2] (Or.inr rfl)

/-- C4: for a not-yet-valid candidate, the routing pipeline marks it valid
iff the accumulated cost stays within the penalty at all four stage
boundaries; a validated candidate's `routing_cost` is the plain four-stage
total, its graph has been through the router's cleanup, and the cleanup event
is in the trace; a candidate left invalid has `routing_cost` equal to the
accumulated total at the failing boundary plus the penalty. -/
theorem doRouting_valid_characterization (r : Router G) (ind : Individual G)
    (h : ind.valid = false) :
    ((doRouting r ind).1.valid = true ↔
      (cum1 r ind.routed_graph ≤ r.penalty ∧ cum2 r ind.routed_graph ≤ r.penalty ∧
        cum3 r ind.routed_graph ≤ r.penalty ∧ cum4 r ind.routed_graph ≤ r.penalty)) ∧
    ((doRouting r ind).1.valid = true →
      (doRouting r ind).1.routing_cost = cum4 r ind.routed_graph ∧
      (doRouting r ind).1.routed_graph = r.clean_graph (graph4 r ind.routed_graph) ∧
      REvent.clean ∈ (doRouting r ind).2) ∧
    ((doRouting r ind).1.valid = false →
      (doRouting r ind).1.routing_cost = failCost r ind.routed_graph + r.penalty) := by
  simp only [doRouting, h, Bool.false_eq_true, if_false]
  simp only [failCost, cum4, cum3, cum2, cum1, graph4, graph3, graph2, graph1]
  split_ifs <;> simp_all

/-- C4 witness: with stage costs 3, 4, 2, 1 and penalty 10 the candidate is
validated and its routing cost is the four-stage total. -/
theorem doRouting_valid_characterization_witness :
    (doRouting demoRouter demoInd).1.valid = true ∧
    (doRouting demoRouter demoInd).1.routing_cost =
      cum4 demoRouter demoInd.routed_graph :=
  have hc := doRouting_valid_characterization demoRouter demoInd rfl
  have hv : (doRouting demoRouter demoInd).1.valid = true := hc.1.mpr (by decide)
  ⟨hv, (hc.2.1 hv).1⟩

/-- C5: when the computation-routing cost alone exceeds the penalty, the
pipeline stops after the computation stage — the trace holds only that stage,
so constant, input and output routing are never invoked — and `routing_cost`
is exactly the computation cost plus the penalty. -/
theorem doRouting_comp_overshoot (r : Router G) (ind : Individual G)
    (h : ind.valid = false) (hc : cum1 r ind.routed_graph > r.penalty) :
    doRouting r ind =
      ({ ind with
          routing_cost := cum1 r ind.routed_graph + r.penalty
          routed_graph := graph1 r ind.routed_graph }, [REvent.comp]) := by
  unfold cum1 graph1 at *
  simp only [doRouting, h, Bool.false_eq_true, if_false]
  rw [if_pos hc]

/-- C5 witness: computation cost 25 against penalty 10 stops routing after
the computation stage with routing cost 25 + 10. -/
theorem doRouting_comp_overshoot_witness :
    doRouting demoRouterHigh demoInd =
      ({ demoInd with
          routing_cost := cum1 demoRouterHigh demoInd.routed_graph + demoRouterHigh.penalty
          routed_graph := graph1 demoRouterHigh demoInd.routed_graph }, [REvent.comp]) :=
  doRouting_comp_overshoot demoRouterHigh demoInd rfl (by decide)

/-- C6 counterexample: for the already-valid candidate `validInd` with stored
fitness `[42]`, evaluation does skip routing but invokes the objective, whose
result `[7]` — not the stored fitness — is returned: the existing fitness is
recomputed, not reused. -/
theorem eval_objectives_recomputes_fitness :
    validInd.valid = true ∧ validInd.fitness = [42] ∧
    eval_objectives [fun _ => (7 : Int)] demoRouter validInd =
      (([7], validInd), [REvent.objective]) ∧
    (eval_objectives [fun _ => (7 : Int)] demoRouter validInd).1.1 ≠
      validInd.fitness := by
  decide

/-- C6 (amended): for a candidate already marked valid, routing is skipped —
no router stage or cleanup event occurs and the candidate (routing cost,
graph, validity) is unchanged — but each objective's `eval` is invoked on the
unchanged candidate and its results form the returned fitness vector, rather
than the stored fitness being reused. -/
theorem eval_objectives_valid_skips_routing (evals : List (Individual G → Int))
    (r : Router G) (ind : Individual G) (h : ind.valid = true) :
    doRouting r ind = (ind, []) ∧
    eval_objectives evals r ind =
      ((evals.map (fun f => f ind), ind), evals.map (fun _ => REvent.objective)) := by
  have hd : doRouting r ind = (ind, []) := by
    simp only [doRouting, h, if_true]
  refine ⟨hd, ?_⟩
  simp only [eval_objectives, hd, List.nil_append]

/-- C6 witness: instantiating the amended statement on `validInd` with the
single objective returning 7. -/
theorem eval_objectives_valid_skips_routing_witness :
    doRouting demoRouter validInd = (validInd, []) ∧
    eval_objectives [fun _ => (7 : Int)] demoRouter validInd =
      (([7], validInd), [REvent.objective]) := by
  have h := eval_objectives_valid_skips_routing [fun _ => (7 : Int)] demoRouter
    validInd rfl
  refine ⟨h.1, ?_⟩
  rw [h.2]
  rfl

/-- C9: when some grid column is occupied by an SE or ALU node of the routed
graph (via a PE's resources) and `m` is the rightmost such column, the
mapping-width objective returns `m + 1`, and it declares itself a
minimization objective. -/
theorem mapWidth_eval_rightmost (cgra : CGRAModel) (nodes : List Nat) (m : Nat)
    (h : (occupiedCols cgra nodes).maximum = (m : WithBot Nat)) :
    mapWidthEval cgra nodes = some (m + 1) ∧ mapWidthIsMinimize = true := by
  refine ⟨?_, rfl⟩
  have hcongr := list_maximum_congr (fun x => mem_xCoords_iff cgra nodes x)
  unfold mapWidthEval
  rw [hcongr, h]
  rfl

/-- C9 witness: on the demo CGRA with SE node 5 in column 1 and ALU node 7 in
column 2, the rightmost occupied column is 2 and the objective returns 3. -/
theorem mapWidth_eval_rightmost_witness :
    mapWidthEval demoCGRA [5, 7, 3] = some 3 ∧ mapWidthIsMinimize = true :=
  mapWidth_eval_rightmost demoCGRA [5, 7, 3] 2 (by decide)

/-- C10: if no node of the routed graph is classified SE or ALU, the
mapping-width evaluation has no value (Python `max` of the empty list raises
`ValueError`); in general it returns a value exactly when some routed-graph
node is an SE or ALU that occurs in some PE's resources. -/
theorem mapWidth_eval_partiality (cgra : CGRAModel) (nodes : List Nat) :
    ((∀ v ∈ nodes, cgra.isSE v = false ∧ cgra.isALU v = false) →
      mapWidthEval cgra nodes = none) ∧
    ((mapWidthEval cgra nodes).isSome = true ↔
      ∃ node ∈ nodes, (cgra.isSE node = true ∨ cgra.isALU node = true) ∧
        ∃ x, x < cgra.width ∧ ∃ y, y < cgra.height ∧
          nodeInPE (cgra.resources x y) node = true) := by
  constructor
  · intro hall
    have hse : nodes.filter cgra.isSE = [] :=
      List.filter_eq_nil_iff.mpr (fun a ha => by simp [(hall a ha).1])
    have halu : nodes.filter cgra.isALU = [] :=
      List.filter_eq_nil_iff.mpr (fun a ha => by simp [(hall a ha).2])
    have hxc : xCoords cgra nodes = [] := by
      unfold xCoords
      rw [hse, halu]
      rfl
    unfold mapWidthEval
    rw [hxc]
    rfl
  · have h1 : (mapWidthEval cgra nodes).isSome =
        ((xCoords cgra nodes).maximum).isSome := by
      unfold mapWidthEval
      cases (xCoords cgra nodes).maximum with
      | bot => rfl
      | coe k => rfl
    rw [h1, Option.isSome_iff_ne_none]
    constructor
    · intro hne
      have hnil : xCoords cgra nodes ≠ [] := by
        intro hcontra
        exact hne (by rw [hcontra]; rfl)
      obtain ⟨x, hx⟩ := List.exists_mem_of_ne_nil _ hnil
      have hocc := (mem_xCoords_iff cgra nodes x).mp hx
      simp only [occupiedCols, List.mem_filter, List.mem_range,
        List.any_eq_true, Bool.and_eq_true, Bool.or_eq_true] at hocc
      obtain ⟨hxw, node, hmem, hclass, y, hy, hin⟩ := hocc
      exact ⟨node, hmem, hclass, x, hxw, y, hy, hin⟩
    · rintro ⟨node, hmem, hclass, x, hxw, y, hyh, hin⟩
      have hx : x ∈ xCoords cgra nodes := by
        apply (mem_xCoords_iff cgra nodes x).mpr
        simp only [occupiedCols, List.mem_filter, List.mem_range,
          List.any_eq_true, Bool.and_eq_true, Bool.or_eq_true]
        exact ⟨hxw, node, hmem, hclass, y, hyh, hin⟩
      intro hnone
      have hnil : xCoords cgra nodes = [] := List.maximum_eq_bot.mp hnone
      rw [hnil] at hx
      exact absurd hx (List.not_mem_nil x)

/-- C10 witness: node 3 is neither SE nor ALU on the demo CGRA, so the
evaluation of a graph holding only node 3 has no value. -/
theorem mapWidth_eval_partiality_witness :
    mapWidthEval demoCGRA [3] = none :=
  (mapWidth_eval_partiality demoCGRA [3]).1 (by decide)

end GenMap
